import Mathlib

/-!
Verification of the Go-WebSockets broadcast server (`src/main.go`).

The source is a small Go program: a registry `clients : map[*websocket.Conn]bool`
guarded by a mutex, a per-connection handler `wsHandler` (admission, welcome
message, read loop, deferred cleanup), a broadcast engine `handleBroadcast`
consuming `(sender, message)` envelopes from a FIFO channel, and a periodic
prober `keepAlive`.

Shallow embedding choices:
- a connection handle is identified by a `Nat`;
- message payloads are `List Nat` (byte sequences);
- the registry is a duplicate-free `List Nat`; the Go map operations
  `clients[conn] = true` and `delete(clients, conn)` are `addConn` / `removeConn`;
- blocking I/O is replaced by oracles: a write-failure oracle `Nat → Bool`
  says which `WriteMessage` calls return an error;
- each infinite loop is embedded as the pure function computing the effect of
  one pass (one envelope for `handleBroadcast`, one tick for `keepAlive`) or of
  a whole finite execution (`wsHandlerTrace`, `handleBroadcastRun`);
- the per-connection lifecycle (admission, the deferred cleanup, and the
  close+delete performed by the engine and the prober on write failure) is a
  guarded transition system `connStep` used to count `Close` invocations.
-/

namespace GoWS

/-- gorilla/websocket frame-type constant `websocket.TextMessage`. -/
def textMessage : Nat := 1

/-- gorilla/websocket frame-type constant `websocket.BinaryMessage`. -/
def binaryMessage : Nat := 2

/-- gorilla/websocket frame-type constant `websocket.PingMessage`. -/
def pingMessage : Nat := 9

/-- UTF-8 encoding of one character, as Go produces for `[]byte(stringLiteral)`. -/
def charUTF8 (c : Char) : List Nat :=
  let n := c.toNat
  if n < 0x80 then [n]
  else if n < 0x800 then [0xC0 ||| (n >>> 6), 0x80 ||| (n &&& 0x3F)]
  else if n < 0x10000 then
    [0xE0 ||| (n >>> 12), 0x80 ||| ((n >>> 6) &&& 0x3F), 0x80 ||| (n &&& 0x3F)]
  else
    [0xF0 ||| (n >>> 18), 0x80 ||| ((n >>> 12) &&& 0x3F),
     0x80 ||| ((n >>> 6) &&& 0x3F), 0x80 ||| (n &&& 0x3F)]

/-- UTF-8 bytes of a string: the Go conversion `[]byte(s)`. -/
def strBytes (s : String) : List Nat := (s.data.map charUTF8).flatten

/-- The welcome payload `[]byte("Welcome to the WebSocket server!")`
sent in `wsHandler` right after admission. -/
def welcomeBytes : List Nat := strBytes "Welcome to the WebSocket server!"

/-- Go map insertion `clients[conn] = true`: membership-idempotent insert. -/
def addConn (c : Nat) (r : List Nat) : List Nat := if c ∈ r then r else r ++ [c]

/-- Go map deletion `delete(clients, conn)`: removes the entry if present. -/
def removeConn (c : Nat) (r : List Nat) : List Nat := r.erase c

/-- One successful `WriteMessage(type, data)` landing on connection `dst`. -/
structure Delivery where
  dst : Nat
  type : Nat
  data : List Nat
deriving DecidableEq, Repr

/-- Effect of one pass of the `for client := range clients` loop in
`handleBroadcast`: the registry afterwards, the successful writes, and the
connections that were closed and deleted because their write failed. -/
structure BroadcastResult where
  regAfter : List Nat
  delivered : List Delivery
  closed : List Nat
deriving DecidableEq, Repr

/-- Body of `handleBroadcast` for a single envelope `(sender, msg)`:
every registered client other than the sender gets
`WriteMessage(websocket.TextMessage, msg)`; a client whose write fails
(per the oracle `fails`) is closed and deleted from the registry. -/
def broadcastOnce (clients : List Nat) (sender : Nat) (msg : List Nat)
    (fails : Nat → Bool) : BroadcastResult :=
  match clients with
  | [] => ⟨[], [], []⟩
  | c :: rest =>
    let r := broadcastOnce rest sender msg fails
    if c = sender then ⟨c :: r.regAfter, r.delivered, r.closed⟩
    else if fails c then ⟨r.regAfter, r.delivered, c :: r.closed⟩
    else ⟨c :: r.regAfter, ⟨c, textMessage, msg⟩ :: r.delivered, r.closed⟩

/-- An element of the Go channel `broadcast`: the struct
`{sender *websocket.Conn; message []byte}`. -/
structure Envelope where
  sender : Nat
  data : List Nat
deriving DecidableEq, Repr

/-- The `handleBroadcast` consumer loop run over a finite FIFO queue of
envelopes, threading the registry; returns the final registry and the
chronological trace of successful deliveries. The failure oracle may
depend on the envelope being processed. -/
def handleBroadcastRun (clients : List Nat) (fails : Envelope → Nat → Bool) :
    List Envelope → List Nat × List Delivery
  | [] => (clients, [])
  | e :: rest =>
    let st := broadcastOnce clients e.sender e.data (fails e)
    let res := handleBroadcastRun st.regAfter fails rest
    (res.1, st.delivered ++ res.2)

/-- The messages connection `r` receives, in order, along a delivery trace. -/
def receivedBy (r : Nat) (trace : List Delivery) : List (List Nat) :=
  (trace.filter (fun d => d.dst == r)).map Delivery.data

/-- Effect of one tick of `keepAlive`: every registered client is sent
`WriteMessage(websocket.PingMessage, nil)`; a client whose write fails is
closed and deleted from the registry. -/
structure TickResult where
  regAfter : List Nat
  probes : List Delivery
  closed : List Nat
deriving DecidableEq, Repr

/-- Body of the `keepAlive` loop for one ticker tick. -/
def keepAliveTick (clients : List Nat) (fails : Nat → Bool) : TickResult :=
  match clients with
  | [] => ⟨[], [], []⟩
  | c :: rest =>
    let r := keepAliveTick rest fails
    if fails c then ⟨r.regAfter, ⟨c, pingMessage, []⟩ :: r.probes, c :: r.closed⟩
    else ⟨c :: r.regAfter, ⟨c, pingMessage, []⟩ :: r.probes, r.closed⟩

/-- The probe period in time units: `time.NewTicker(30 * time.Second)`. -/
def keepAlivePeriod : Nat := 30

/-- Observable actions of `wsHandler` for one connection. -/
inductive Action where
  | register (c : Nat)
  | send (dst : Nat) (type : Nat) (data : List Nat)
  | enqueue (sender : Nat) (data : List Nat)
  | deregister (c : Nat)
  | close (c : Nat)
deriving DecidableEq, Repr

/-- Recognizer for `Action.send`. -/
def Action.isSend : Action → Bool
  | .send _ _ _ => true
  | _ => false

/-- Recognizer for `Action.enqueue`. -/
def Action.isEnqueue : Action → Bool
  | .enqueue _ _ => true
  | _ => false

/-- Trace of one complete `wsHandler` execution, given whether the welcome
write succeeds and the frames `(messageType, data)` successfully read before
the terminal read failure. The handler registers the connection, attempts the
single welcome write, enters the read loop only when the welcome write
succeeded, forwards each read message to the `broadcast` channel discarding
its frame type (`_, message, err := conn.ReadMessage()`), and on exit the
deferred function deletes the connection from the registry and closes it. -/
def wsHandlerTrace (c : Nat) (welcomeOk : Bool) (reads : List (Nat × List Nat)) :
    List Action :=
  Action.register c :: Action.send c textMessage welcomeBytes ::
    ((if welcomeOk then reads.map (fun r => Action.enqueue c r.2) else []) ++
      [Action.deregister c, Action.close c])

/-- Phases of the lifetime of one connection inside `wsHandler`. -/
inductive Phase where
  | fresh
  | welcoming
  | reading
  | exited
deriving DecidableEq, Repr

/-- Lifecycle state of one connection: its handler phase, whether it is in
the `clients` registry, and how many times `conn.Close()` has run on it. -/
structure ConnState where
  phase : Phase
  registered : Bool
  closeCalls : Nat
deriving DecidableEq, Repr

/-- The events that can involve one fixed connection in the Go program. -/
inductive Ev where
  | admitted
  | welcomeOk
  | welcomeFail
  | readOk
  | readFail
  | bcastWriteFail
  | probeWriteFail
deriving DecidableEq, Repr

/-- Guarded transition function for one connection, from `src/main.go`:
`admit` is the successful upgrade plus `clients[conn] = true`;
`welcomeFail` and `readFail` make the handler return, running the deferred
`delete(clients, conn); conn.Close()`; `bcastWriteFail` / `probeWriteFail`
are `client.Close(); delete(clients, client)` performed by `handleBroadcast`
or `keepAlive` on a registered connection whose write failed (the reader
goroutine keeps running). Events whose guard fails cannot occur. -/
def connStep (s : ConnState) : Ev → Option ConnState
  | .admitted =>
    if s.phase = .fresh then some ⟨.welcoming, true, s.closeCalls⟩ else none
  | .welcomeOk =>
    if s.phase = .welcoming then some ⟨.reading, s.registered, s.closeCalls⟩ else none
  | .welcomeFail =>
    if s.phase = .welcoming then some ⟨.exited, false, s.closeCalls + 1⟩ else none
  | .readOk =>
    if s.phase = .reading then some s else none
  | .readFail =>
    if s.phase = .reading then some ⟨.exited, false, s.closeCalls + 1⟩ else none
  | .bcastWriteFail =>
    if s.registered then some ⟨s.phase, false, s.closeCalls + 1⟩ else none
  | .probeWriteFail =>
    if s.registered then some ⟨s.phase, false, s.closeCalls + 1⟩ else none

/-- State of a connection handle never seen by the server. -/
def initConn : ConnState := ⟨.fresh, false, 0⟩

/-- Run a sequence of events from a given state; `none` if the guard of
some event fails. -/
def runFrom : ConnState → List Ev → Option ConnState
  | s, [] => some s
  | s, e :: rest =>
    match connStep s e with
    | none => none
    | some s' => runFrom s' rest

/-- Run a sequence of events on a fresh connection. -/
def runEvents (evs : List Ev) : Option ConnState := runFrom initConn evs

/-! ### Characterization of one broadcast pass -/

theorem broadcastOnce_regAfter (cl : List Nat) (s : Nat) (m : List Nat)
    (f : Nat → Bool) :
    (broadcastOnce cl s m f).regAfter = cl.filter (fun c => c == s || !f c) := by
  induction cl with
  | nil => rfl
  | cons c rest ih =>
    by_cases hcs : c = s
    · simp [broadcastOnce, hcs, List.filter_cons, ih]
    · by_cases hf : f c = true
      · simp [broadcastOnce, hcs, hf, List.filter_cons, ih]
      · simp [broadcastOnce, hcs, hf, List.filter_cons, ih]

theorem broadcastOnce_closed (cl : List Nat) (s : Nat) (m : List Nat)
    (f : Nat → Bool) :
    (broadcastOnce cl s m f).closed = cl.filter (fun c => !(c == s) && f c) := by
  induction cl with
  | nil => rfl
  | cons c rest ih =>
    by_cases hcs : c = s
    · simp [broadcastOnce, hcs, List.filter_cons, ih]
    · by_cases hf : f c = true
      · simp [broadcastOnce, hcs, hf, List.filter_cons, ih]
      · simp [broadcastOnce, hcs, hf, List.filter_cons, ih]

theorem broadcastOnce_delivered (cl : List Nat) (s : Nat) (m : List Nat)
    (f : Nat → Bool) :
    (broadcastOnce cl s m f).delivered =
      (cl.filter (fun c => !(c == s) && !f c)).map
        (fun c => Delivery.mk c textMessage m) := by
  induction cl with
  | nil => rfl
  | cons c rest ih =>
    by_cases hcs : c = s
    · simp [broadcastOnce, hcs, List.filter_cons, ih]
    · by_cases hf : f c = true
      · simp [broadcastOnce, hcs, hf, List.filter_cons, ih]
      · simp [broadcastOnce, hcs, hf, List.filter_cons, ih]

theorem filter_beq_of_nodup (cl : List Nat) (B : Nat) (hnd : cl.Nodup)
    (hB : B ∈ cl) : cl.filter (fun c => c == B) = [B] := by
  induction cl with
  | nil => cases hB
  | cons c rest ih =>
    rcases List.mem_cons.mp hB with h | h
    · subst h
      have hnotin : B ∉ rest := (List.nodup_cons.mp hnd).1
      have hnil : rest.filter (fun x => x == B) = [] := by
        rw [List.filter_eq_nil_iff]
        intro a ha
        simp only [beq_iff_eq]
        intro hac
        exact hnotin (hac ▸ ha)
      simp [List.filter_cons, hnil]
    · have hcB : c ≠ B := by
        rintro rfl
        exact (List.nodup_cons.mp hnd).1 h
      simp [List.filter_cons, hcB, ih (List.nodup_cons.mp hnd).2 h]

theorem delivery_mk_injective (m : List Nat) :
    Function.Injective (fun c => Delivery.mk c textMessage m) := by
  intro a b h
  simpa using congrArg Delivery.dst h

/-- C2: the broadcast engine never writes the message of an envelope back to its
sender: every delivery produced by one pass of `handleBroadcast` targets a
registered connection different from the sender. -/
theorem no_self_delivery (cl : List Nat) (s : Nat) (m : List Nat)
    (f : Nat → Bool) :
    (broadcastOnce cl s m f).delivered.all
      (fun d => d.dst != s && decide (d.dst ∈ cl)) = true := by
  rw [broadcastOnce_delivered, List.all_eq_true]
  intro d hd
  simp only [List.mem_map, List.mem_filter] at hd
  obtain ⟨c, ⟨hmem, hc⟩, rfl⟩ := hd
  have h1 := (Bool.and_eq_true _ _).mp hc
  simp only [Bool.and_eq_true, bne, decide_eq_true_eq]
  exact ⟨by simpa [bne] using h1.1, hmem⟩

/-- C3: with `N` registered connections, no write failure, and sender `A`
registered, one broadcast pass delivers the message to exactly the `N − 1`
other connections, each exactly once. -/
theorem fanout_complete_no_failure (cl : List Nat) (A : Nat) (M : List Nat)
    (hnd : cl.Nodup) (hA : A ∈ cl) :
    (broadcastOnce cl A M (fun _ => false)).delivered.length = cl.length - 1 ∧
    ∀ c ∈ cl, c ≠ A →
      (broadcastOnce cl A M (fun _ => false)).delivered.count
        (Delivery.mk c textMessage M) = 1 := by
  have hdel : (broadcastOnce cl A M (fun _ => false)).delivered =
      (cl.erase A).map (fun c => Delivery.mk c textMessage M) := by
    rw [broadcastOnce_delivered, hnd.erase_eq_filter]
    simp [bne]
  constructor
  · rw [hdel, List.length_map, List.length_erase_of_mem hA]
  · intro c hc hcA
    rw [hdel, List.count_map_of_injective _ _ (delivery_mk_injective M)]
    exact List.count_eq_one_of_mem (hnd.erase A) ((List.mem_erase_of_ne hcA).mpr hc)

/-- C3 witness at three connections and sender 1. -/
theorem fanout_complete_no_failure_witness :
    (broadcastOnce [1, 2, 3] 1 [104, 105] (fun _ => false)).delivered.length =
      [1, 2, 3].length - 1 ∧
    ∀ c ∈ [1, 2, 3], c ≠ 1 →
      (broadcastOnce [1, 2, 3] 1 [104, 105] (fun _ => false)).delivered.count
        (Delivery.mk c textMessage [104, 105]) = 1 :=
  fanout_complete_no_failure [1, 2, 3] 1 [104, 105] (by decide) (by decide)

/-- C4: when exactly recipient `B` fails during a broadcast pass, `B` is
closed and removed from the registry, every other registered non-sender still
receives the message exactly once, nothing is delivered to the sender, and a
subsequent failure-free broadcast reaches exactly the remaining non-sender
connections. -/
theorem fault_isolation (cl : List Nat) (A B : Nat) (M M2 : List Nat)
    (hnd : cl.Nodup) (hB : B ∈ cl) (hBA : B ≠ A) :
    (broadcastOnce cl A M (fun c => c == B)).regAfter = cl.erase B ∧
    (broadcastOnce cl A M (fun c => c == B)).closed = [B] ∧
    (∀ c ∈ cl, c ≠ A → c ≠ B →
      (broadcastOnce cl A M (fun c => c == B)).delivered.count
        (Delivery.mk c textMessage M) = 1) ∧
    (∀ d ∈ (broadcastOnce cl A M (fun c => c == B)).delivered,
      d.dst ≠ A ∧ d.dst ≠ B) ∧
    (broadcastOnce (broadcastOnce cl A M (fun c => c == B)).regAfter A M2
        (fun _ => false)).delivered =
      ((cl.erase B).filter (fun c => !(c == A))).map
        (fun c => Delivery.mk c textMessage M2) := by
  have hreg : (broadcastOnce cl A M (fun c => c == B)).regAfter = cl.erase B := by
    rw [broadcastOnce_regAfter, hnd.erase_eq_filter]
    apply List.filter_congr
    intro x _
    by_cases hxB : x = B
    · subst hxB
      simp [hBA]
    · simp [hxB, bne]
  refine ⟨hreg, ?_, ?_, ?_, ?_⟩
  · rw [broadcastOnce_closed]
    rw [← filter_beq_of_nodup cl B hnd hB]
    apply List.filter_congr
    intro x _
    by_cases hxB : x = B
    · subst hxB
      simp [hBA]
    · simp [hxB]
  · intro c hc hcA hcB
    rw [broadcastOnce_delivered,
      List.count_map_of_injective _ _ (delivery_mk_injective M)]
    refine List.count_eq_one_of_mem (hnd.filter _) ?_
    rw [List.mem_filter]
    exact ⟨hc, by simp [hcA, hcB]⟩
  · intro d hd
    rw [broadcastOnce_delivered] at hd
    simp only [List.mem_map, List.mem_filter, Bool.and_eq_true] at hd
    obtain ⟨c, ⟨_, hcA, hcB⟩, rfl⟩ := hd
    constructor
    · simpa using hcA
    · simpa using hcB
  · rw [hreg, broadcastOnce_delivered]
    simp

/-- C4 witness: three connections, sender 1, failing recipient 2. -/
theorem fault_isolation_witness :
    (broadcastOnce [1, 2, 3] 1 [104] (fun c => c == 2)).regAfter =
      [1, 2, 3].erase 2 ∧
    (broadcastOnce [1, 2, 3] 1 [104] (fun c => c == 2)).closed = [2] ∧
    (∀ c ∈ [1, 2, 3], c ≠ 1 → c ≠ 2 →
      (broadcastOnce [1, 2, 3] 1 [104] (fun c => c == 2)).delivered.count
        (Delivery.mk c textMessage [104]) = 1) ∧
    (∀ d ∈ (broadcastOnce [1, 2, 3] 1 [104] (fun c => c == 2)).delivered,
      d.dst ≠ 1 ∧ d.dst ≠ 2) ∧
    (broadcastOnce (broadcastOnce [1, 2, 3] 1 [104] (fun c => c == 2)).regAfter
        1 [7] (fun _ => false)).delivered =
      (([1, 2, 3].erase 2).filter (fun c => !(c == 1))).map
        (fun c => Delivery.mk c textMessage [7]) :=
  fault_isolation [1, 2, 3] 1 2 [104] [7] (by decide) (by decide) (by decide)

/-! ### FIFO processing of the broadcast channel -/

theorem handleBroadcastRun_append (cl : List Nat) (f : Envelope → Nat → Bool)
    (q1 q2 : List Envelope) :
    handleBroadcastRun cl f (q1 ++ q2) =
      ((handleBroadcastRun (handleBroadcastRun cl f q1).1 f q2).1,
       (handleBroadcastRun cl f q1).2 ++
         (handleBroadcastRun (handleBroadcastRun cl f q1).1 f q2).2) := by
  induction q1 generalizing cl with
  | nil => simp [handleBroadcastRun]
  | cons e rest ih => simp [handleBroadcastRun, ih]

theorem receivedBy_append (r : Nat) (t1 t2 : List Delivery) :
    receivedBy r (t1 ++ t2) = receivedBy r t1 ++ receivedBy r t2 := by
  simp [receivedBy, List.filter_append]

theorem mem_receivedBy (r : Nat) (trace : List Delivery) (d : Delivery)
    (hd : d ∈ trace) (hr : d.dst = r) : d.data ∈ receivedBy r trace := by
  simp only [receivedBy, List.mem_map]
  exact ⟨d, List.mem_filter.mpr ⟨hd, by simp [hr]⟩, rfl⟩

theorem handleBroadcastRun_append_fst (cl : List Nat)
    (f : Envelope → Nat → Bool) (q1 q2 : List Envelope) :
    (handleBroadcastRun cl f (q1 ++ q2)).1 =
      (handleBroadcastRun (handleBroadcastRun cl f q1).1 f q2).1 := by
  rw [handleBroadcastRun_append]

theorem handleBroadcastRun_append_snd (cl : List Nat)
    (f : Envelope → Nat → Bool) (q1 q2 : List Envelope) :
    (handleBroadcastRun cl f (q1 ++ q2)).2 =
      (handleBroadcastRun cl f q1).2 ++
        (handleBroadcastRun (handleBroadcastRun cl f q1).1 f q2).2 := by
  rw [handleBroadcastRun_append]

theorem handleBroadcastRun_singleton_fst (r0 : List Nat)
    (f : Envelope → Nat → Bool) (e : Envelope) :
    (handleBroadcastRun r0 f [e]).1 =
      (broadcastOnce r0 e.sender e.data (f e)).regAfter := by
  simp [handleBroadcastRun]

theorem handleBroadcastRun_singleton_snd (r0 : List Nat)
    (f : Envelope → Nat → Bool) (e : Envelope) :
    (handleBroadcastRun r0 f [e]).2 =
      (broadcastOnce r0 e.sender e.data (f e)).delivered := by
  simp [handleBroadcastRun]

theorem sublist_pair_of_mem {α : Type} (x y : α) (a b c d e : List α)
    (hx : x ∈ b) (hy : y ∈ d) :
    List.Sublist [x, y] (a ++ b ++ c ++ d ++ e) := by
  have h1 : List.Sublist [x] b := List.singleton_sublist.mpr hx
  have h2 : List.Sublist [y] (c ++ (d ++ e)) :=
    List.Sublist.trans (List.singleton_sublist.mpr hy)
      (List.Sublist.trans (List.sublist_append_left d e)
        (List.sublist_append_right c (d ++ e)))
  have h3 : List.Sublist ([x] ++ [y]) (b ++ (c ++ (d ++ e))) :=
    List.Sublist.append h1 h2
  have h4 : List.Sublist ([x] ++ [y]) (a ++ (b ++ (c ++ (d ++ e)))) :=
    List.Sublist.trans h3 (List.sublist_append_right a _)
  simpa [List.append_assoc] using h4

/-- C5: the broadcast engine consumes the channel first-in first-out, so if
two envelopes from the same sender sit in the queue in order `e1` before
`e2` and a recipient `r` receives both, then `r` receives the payload of `e1`
before the payload of `e2`. -/
theorem per_sender_fifo (cl : List Nat) (f : Envelope → Nat → Bool)
    (q1 q2 q3 : List Envelope) (e1 e2 : Envelope) (r : Nat)
    (_hsender : e1.sender = e2.sender)
    (h1 : Delivery.mk r textMessage e1.data ∈
      (broadcastOnce (handleBroadcastRun cl f q1).1 e1.sender e1.data
        (f e1)).delivered)
    (h2 : Delivery.mk r textMessage e2.data ∈
      (broadcastOnce (handleBroadcastRun cl f (q1 ++ [e1] ++ q2)).1 e2.sender
        e2.data (f e2)).delivered) :
    List.Sublist [e1.data, e2.data]
      (receivedBy r (handleBroadcastRun cl f (q1 ++ [e1] ++ q2 ++ [e2] ++ q3)).2) := by
  have hdec : (handleBroadcastRun cl f (q1 ++ [e1] ++ q2 ++ [e2] ++ q3)).2 =
      (handleBroadcastRun cl f q1).2 ++
      (broadcastOnce (handleBroadcastRun cl f q1).1 e1.sender e1.data
        (f e1)).delivered ++
      (handleBroadcastRun (handleBroadcastRun cl f (q1 ++ [e1])).1 f q2).2 ++
      (broadcastOnce (handleBroadcastRun cl f (q1 ++ [e1] ++ q2)).1 e2.sender
        e2.data (f e2)).delivered ++
      (handleBroadcastRun (handleBroadcastRun cl f (q1 ++ [e1] ++ q2 ++ [e2])).1
        f q3).2 := by
    rw [handleBroadcastRun_append_snd cl f (q1 ++ [e1] ++ q2 ++ [e2]) q3,
      handleBroadcastRun_append_snd cl f (q1 ++ [e1] ++ q2) [e2],
      handleBroadcastRun_singleton_snd,
      handleBroadcastRun_append_snd cl f (q1 ++ [e1]) q2,
      handleBroadcastRun_append_snd cl f q1 [e1],
      handleBroadcastRun_singleton_snd]
  rw [hdec, receivedBy_append, receivedBy_append, receivedBy_append,
    receivedBy_append]
  refine sublist_pair_of_mem e1.data e2.data _ _ _ _ _ ?_ ?_
  · exact mem_receivedBy r _ _ h1 rfl
  · exact mem_receivedBy r _ _ h2 rfl

/-- C5 witness: two queued envelopes from sender 1 reach recipient 2 in
queue order. -/
theorem per_sender_fifo_witness :
    List.Sublist [[10], [20]]
      (receivedBy 2 (handleBroadcastRun [1, 2] (fun _ _ => false)
        ([] ++ [Envelope.mk 1 [10]] ++ [] ++ [Envelope.mk 1 [20]] ++ [])).2) :=
  per_sender_fifo [1, 2] (fun _ _ => false) [] [] []
    (Envelope.mk 1 [10]) (Envelope.mk 1 [20]) 2 rfl (by decide) (by decide)

/-! ### Welcome message, welcome failure, and frame types -/

theorem enqueue_map_no_send (c : Nat) (reads : List (Nat × List Nat)) :
    (reads.map (fun r => Action.enqueue c r.2)).filter Action.isSend = [] := by
  induction reads with
  | nil => rfl
  | cons p rest ih => simp [List.filter_cons, Action.isSend, ih]

theorem enqueue_map_all_enqueue (c : Nat) (reads : List (Nat × List Nat)) :
    (reads.map (fun r => Action.enqueue c r.2)).filter Action.isEnqueue =
      reads.map (fun r => Action.enqueue c r.2) := by
  induction reads with
  | nil => rfl
  | cons p rest ih => simp [List.filter_cons, Action.isEnqueue, ih]

/-- C6: every admitted connection is sent exactly one welcome frame, as the
very next action after registration, and its payload is the fixed UTF-8
encoding of "Welcome to the WebSocket server!" — a constant independent of
the connection, hence byte-identical for every connection. -/
theorem welcome_exactly_once (c : Nat) (welcomeOk : Bool)
    (reads : List (Nat × List Nat)) :
    (wsHandlerTrace c welcomeOk reads).filter Action.isSend =
      [Action.send c textMessage welcomeBytes] ∧
    (wsHandlerTrace c welcomeOk reads).take 2 =
      [Action.register c, Action.send c textMessage welcomeBytes] ∧
    welcomeBytes = [87, 101, 108, 99, 111, 109, 101, 32, 116, 111, 32, 116,
      104, 101, 32, 87, 101, 98, 83, 111, 99, 107, 101, 116, 32, 115, 101,
      114, 118, 101, 114, 33] := by
  refine ⟨?_, by simp [wsHandlerTrace], by decide⟩
  cases welcomeOk with
  | false => simp [wsHandlerTrace, List.filter_cons, Action.isSend]
  | true =>
    simp [wsHandlerTrace, List.filter_cons, Action.isSend,
      List.filter_append, enqueue_map_no_send]

/-- C9: when the welcome write fails, the handler never enters the read
loop (no message is ever enqueued for this connection) and the deferred
cleanup still runs: the trace is exactly registration, the attempted welcome
write, deregistration, and closing the handle. -/
theorem welcome_failure_cleanup (c : Nat) (reads : List (Nat × List Nat)) :
    wsHandlerTrace c false reads =
      [Action.register c, Action.send c textMessage welcomeBytes,
       Action.deregister c, Action.close c] := by
  simp [wsHandlerTrace]

/-- C10: the reader loop discards the inbound frame type — the enqueued
envelopes carry only the payload bytes, so two read streams agreeing on
payloads produce identical handler traces regardless of frame types — and
every frame the broadcast engine writes has type `websocket.TextMessage`. -/
theorem binary_redelivered_as_text (c : Nat) (reads reads2 : List (Nat × List Nat))
    (welcomeOk : Bool) (cl : List Nat) (s : Nat) (m : List Nat) (f : Nat → Bool)
    (hsame : reads.map Prod.snd = reads2.map Prod.snd) :
    wsHandlerTrace c welcomeOk reads = wsHandlerTrace c welcomeOk reads2 ∧
    (wsHandlerTrace c true reads).filter Action.isEnqueue =
      (reads.map Prod.snd).map (Action.enqueue c) ∧
    (broadcastOnce cl s m f).delivered.all
      (fun d => d.type == textMessage) = true := by
  refine ⟨?_, ?_, ?_⟩
  · have hmap : reads.map (fun r => Action.enqueue c r.2) =
        reads2.map (fun r => Action.enqueue c r.2) := by
      have h1 : reads.map (fun r => Action.enqueue c r.2) =
          (reads.map Prod.snd).map (Action.enqueue c) := by
        simp [List.map_map, Function.comp]
      have h2 : reads2.map (fun r => Action.enqueue c r.2) =
          (reads2.map Prod.snd).map (Action.enqueue c) := by
        simp [List.map_map, Function.comp]
      rw [h1, h2, hsame]
    simp [wsHandlerTrace, hmap]
  · simp only [wsHandlerTrace, if_true, List.filter_cons, List.filter_append,
      Action.isEnqueue, enqueue_map_all_enqueue]
    simp [List.filter_cons, Action.isEnqueue, List.map_map, Function.comp_def]
  · rw [broadcastOnce_delivered, List.all_eq_true]
    intro d hd
    simp only [List.mem_map] at hd
    obtain ⟨x, _, rfl⟩ := hd
    simp

/-- C10 witness: a binary-typed and a text-typed read stream with the same
payload yield the same trace, whose enqueued envelope drops the frame type,
and the broadcast pass emits only text frames. -/
theorem binary_redelivered_as_text_witness :
    wsHandlerTrace 1 true [(binaryMessage, [5])] =
      wsHandlerTrace 1 true [(textMessage, [5])] ∧
    (wsHandlerTrace 1 true [(binaryMessage, [5])]).filter Action.isEnqueue =
      ([(binaryMessage, [5])].map Prod.snd).map (Action.enqueue 1) ∧
    (broadcastOnce [1, 2] 1 [5] (fun _ => false)).delivered.all
      (fun d => d.type == textMessage) = true :=
  binary_redelivered_as_text 1 [(binaryMessage, [5])] [(textMessage, [5])]
    true [1, 2] 1 [5] (fun _ => false) (by decide)

/-! ### Registry operations -/

/-- C8: `clients[conn] = true` is idempotent — inserting an already present
connection leaves the registry unchanged and never duplicates an entry —
and `delete(clients, conn)` is a no-op on an absent connection and removes
exactly the entry of that connection when present. -/
theorem registry_add_remove (c : Nat) (r : List Nat) :
    addConn c (addConn c r) = addConn c r ∧
    (c ∈ r → addConn c r = r) ∧
    (r.Nodup → (addConn c r).Nodup) ∧
    (c ∉ r → removeConn c r = r) ∧
    (r.Nodup → removeConn c r = r.filter (fun x => x != c)) := by
  refine ⟨?_, ?_, ?_, ?_, ?_⟩
  · by_cases h : c ∈ r
    · simp [addConn, h]
    · simp [addConn, h]
  · intro h
    simp [addConn, h]
  · intro hnd
    by_cases h : c ∈ r
    · simpa [addConn, h] using hnd
    · simp [addConn, h, List.nodup_append, hnd]
  · intro h
    simp [removeConn, List.erase_of_not_mem h]
  · intro hnd
    simpa [removeConn] using hnd.erase_eq_filter c

/-- C8 witness at a three-element registry. -/
theorem registry_add_remove_witness :
    addConn 2 (addConn 2 [1, 2, 3]) = addConn 2 [1, 2, 3] ∧
    (2 ∈ [1, 2, 3] → addConn 2 [1, 2, 3] = [1, 2, 3]) ∧
    ([1, 2, 3].Nodup → (addConn 2 [1, 2, 3]).Nodup) ∧
    (2 ∉ [1, 2, 3] → removeConn 2 [1, 2, 3] = [1, 2, 3]) ∧
    ([1, 2, 3].Nodup → removeConn 2 [1, 2, 3] =
      [1, 2, 3].filter (fun x => x != 2)) :=
  registry_add_remove 2 [1, 2, 3]

/-! ### The liveness prober -/

theorem keepAliveTick_probes (cl : List Nat) (f : Nat → Bool) :
    (keepAliveTick cl f).probes =
      cl.map (fun c => Delivery.mk c pingMessage []) := by
  induction cl with
  | nil => rfl
  | cons c rest ih =>
    by_cases h : f c = true
    · simp [keepAliveTick, h, ih]
    · simp [keepAliveTick, h, ih]

theorem keepAliveTick_regAfter (cl : List Nat) (f : Nat → Bool) :
    (keepAliveTick cl f).regAfter = cl.filter (fun c => !f c) := by
  induction cl with
  | nil => rfl
  | cons c rest ih =>
    by_cases h : f c = true
    · simp [keepAliveTick, h, List.filter_cons, ih]
    · simp [keepAliveTick, h, List.filter_cons, ih]

theorem keepAliveTick_closed (cl : List Nat) (f : Nat → Bool) :
    (keepAliveTick cl f).closed = cl.filter f := by
  induction cl with
  | nil => rfl
  | cons c rest ih =>
    by_cases h : f c = true
    · simp [keepAliveTick, h, List.filter_cons, ih]
    · simp [keepAliveTick, h, List.filter_cons, ih]

/-- C7: each tick of the 30-time-unit prober sends exactly one empty-payload
protocol ping to every registered connection, prunes exactly the connections
whose probe write fails, and that pruning coincides with the
closure-and-deregistration a broadcast write failure performs (for any sender
outside the registry — the probe loop has no sender to skip). The tick is a
function of the registry and the send-failure oracle alone: no response is
awaited or inspected. -/
theorem keepalive_probes_and_prunes (cl : List Nat) (f : Nat → Bool)
    (s : Nat) (m : List Nat) :
    keepAlivePeriod = 30 ∧
    (keepAliveTick cl f).probes =
      cl.map (fun c => Delivery.mk c pingMessage []) ∧
    (keepAliveTick cl f).regAfter = cl.filter (fun c => !f c) ∧
    (keepAliveTick cl f).closed = cl.filter f ∧
    (s ∉ cl →
      (keepAliveTick cl f).regAfter = (broadcastOnce cl s m f).regAfter ∧
      (keepAliveTick cl f).closed = (broadcastOnce cl s m f).closed) := by
  refine ⟨rfl, keepAliveTick_probes cl f, keepAliveTick_regAfter cl f,
    keepAliveTick_closed cl f, ?_⟩
  intro hs
  constructor
  · rw [keepAliveTick_regAfter, broadcastOnce_regAfter]
    apply List.filter_congr
    intro x hx
    have hxs : x ≠ s := by
      rintro rfl
      exact hs hx
    simp [hxs]
  · rw [keepAliveTick_closed, broadcastOnce_closed]
    apply List.filter_congr
    intro x hx
    have hxs : x ≠ s := by
      rintro rfl
      exact hs hx
    simp [hxs]

/-- C7 witness: two registered connections, the second failing its probe. -/
theorem keepalive_probes_and_prunes_witness :
    keepAlivePeriod = 30 ∧
    (keepAliveTick [1, 2] (fun c => c == 2)).probes =
      [1, 2].map (fun c => Delivery.mk c pingMessage []) ∧
    (keepAliveTick [1, 2] (fun c => c == 2)).regAfter =
      [1, 2].filter (fun c => !(c == 2)) ∧
    (keepAliveTick [1, 2] (fun c => c == 2)).closed =
      [1, 2].filter (fun c => c == 2) ∧
    (7 ∉ [1, 2] →
      (keepAliveTick [1, 2] (fun c => c == 2)).regAfter =
        (broadcastOnce [1, 2] 7 [] (fun c => c == 2)).regAfter ∧
      (keepAliveTick [1, 2] (fun c => c == 2)).closed =
        (broadcastOnce [1, 2] 7 [] (fun c => c == 2)).closed) :=
  keepalive_probes_and_prunes [1, 2] (fun c => c == 2) 7 []

/-! ### The per-connection lifecycle and the cleanup count -/

/-- Reachability invariant of the lifecycle machine: before the handler
exits, the close count is 0 while registered and 1 once an engine-side or
prober-side failure has struck; after exit it is 1 or 2. -/
def ConnInv (s : ConnState) : Prop :=
  (s.phase = Phase.fresh → s.registered = false ∧ s.closeCalls = 0) ∧
  (s.phase = Phase.welcoming →
    s.closeCalls = if s.registered then 0 else 1) ∧
  (s.phase = Phase.reading →
    s.closeCalls = if s.registered then 0 else 1) ∧
  (s.phase = Phase.exited →
    s.registered = false ∧ 1 ≤ s.closeCalls ∧ s.closeCalls ≤ 2)

theorem connStep_inv (s s' : ConnState) (e : Ev) (hinv : ConnInv s)
    (h : connStep s e = some s') : ConnInv s' := by
  obtain ⟨h1, h2, h3, h4⟩ := hinv
  cases e <;> simp only [connStep] at h
  case admitted =>
    split at h
    case isTrue hph =>
      obtain ⟨-, hc⟩ := h1 hph
      cases h
      simp [ConnInv, hc]
    case isFalse => cases h
  case welcomeOk =>
    split at h
    case isTrue hph =>
      have := h2 hph
      cases h
      simp only [ConnInv]
      refine ⟨by simp, by simp, fun _ => this, by simp⟩
    case isFalse => cases h
  case welcomeFail =>
    split at h
    case isTrue hph =>
      have := h2 hph
      cases h
      simp only [ConnInv]
      refine ⟨by simp, by simp, by simp, fun _ => ⟨by simp, ?_, ?_⟩⟩
      · omega
      · cases hr : s.registered <;> simp [hr] at this <;> omega
    case isFalse => cases h
  case readOk =>
    split at h
    case isTrue hph =>
      cases h
      exact ⟨h1, h2, h3, h4⟩
    case isFalse => cases h
  case readFail =>
    split at h
    case isTrue hph =>
      have := h3 hph
      cases h
      simp only [ConnInv]
      refine ⟨by simp, by simp, by simp, fun _ => ⟨by simp, ?_, ?_⟩⟩
      · omega
      · cases hr : s.registered <;> simp [hr] at this <;> omega
    case isFalse => cases h
  case bcastWriteFail =>
    split at h
    case isTrue hreg =>
      cases h
      cases hph : s.phase
      case fresh =>
        obtain ⟨hrf, -⟩ := h1 hph
        rw [hreg] at hrf
        cases hrf
      case welcoming =>
        have := h2 hph
        rw [hreg] at this
        simp only [if_true] at this
        simp [ConnInv, hph, this]
      case reading =>
        have := h3 hph
        rw [hreg] at this
        simp only [if_true] at this
        simp [ConnInv, hph, this]
      case exited =>
        obtain ⟨hrf, -⟩ := h4 hph
        rw [hreg] at hrf
        cases hrf
    case isFalse => cases h
  case probeWriteFail =>
    split at h
    case isTrue hreg =>
      cases h
      cases hph : s.phase
      case fresh =>
        obtain ⟨hrf, -⟩ := h1 hph
        rw [hreg] at hrf
        cases hrf
      case welcoming =>
        have := h2 hph
        rw [hreg] at this
        simp only [if_true] at this
        simp [ConnInv, hph, this]
      case reading =>
        have := h3 hph
        rw [hreg] at this
        simp only [if_true] at this
        simp [ConnInv, hph, this]
      case exited =>
        obtain ⟨hrf, -⟩ := h4 hph
        rw [hreg] at hrf
        cases hrf
    case isFalse => cases h

theorem runFrom_inv (evs : List Ev) (s s' : ConnState) (hinv : ConnInv s)
    (h : runFrom s evs = some s') : ConnInv s' := by
  induction evs generalizing s with
  | nil =>
    simp only [runFrom] at h
    cases h
    exact hinv
  | cons e rest ih =>
    simp only [runFrom] at h
    cases hst : connStep s e with
    | none => rw [hst] at h; cases h
    | some s1 =>
      rw [hst] at h
      exact ih s1 (connStep_inv s s1 e hinv hst) h

theorem connStep_exited (s : ConnState) (e : Ev) (hph : s.phase = Phase.exited)
    (hreg : s.registered = false) : connStep s e = none := by
  cases e <;> simp [connStep, hph, hreg]

theorem runFrom_exited (q : List Ev) (s s2 : ConnState)
    (hph : s.phase = Phase.exited) (hreg : s.registered = false)
    (h : runFrom s q = some s2) : s2 = s := by
  cases q with
  | nil =>
    simp only [runFrom] at h
    cases h
    rfl
  | cons e rest =>
    simp only [runFrom, connStep_exited s e hph hreg] at h
    cases h

theorem runFrom_append (p q : List Ev) (s : ConnState) :
    runFrom s (p ++ q) = (runFrom s p).bind (fun s1 => runFrom s1 q) := by
  induction p generalizing s with
  | nil => simp [runFrom]
  | cons e rest ih =>
    rw [List.cons_append, runFrom, runFrom]
    cases connStep s e with
    | none => rfl
    | some s1 => exact ih s1

theorem initConn_inv : ConnInv initConn := by
  simp [ConnInv, initConn]

/-- C1 counterexample: a connection that is admitted, welcomed, then hit by
a broadcast write failure is closed and deleted by `handleBroadcast`; its
reader, blocked on the now-dead connection, subsequently gets a read error
and the deferred cleanup deletes and closes it a second time. Over this
complete lifetime the close-and-deregister action runs twice, not once. -/
theorem double_close_counterexample :
    runEvents [Ev.admitted, Ev.welcomeOk, Ev.bcastWriteFail, Ev.readFail] =
      some (ConnState.mk Phase.exited false 2) ∧
    (ConnState.mk Phase.exited false 2).closeCalls ≠ 1 := by
  exact ⟨rfl, by decide⟩

/-- C1 (amended): over any connection lifetime the close-and-deregister
action runs at least once on exit and at most twice (a second run happens
exactly when an engine- or prober-side write failure precedes the deferred
cleanup of the reader); once the handler has exited, the connection is
deregistered and the CLOSED state is irreversible — no further event can
touch the connection, so its state never changes again. -/
theorem cleanup_bounded_and_irreversible (evs evs2 : List Ev)
    (s s2 : ConnState) (h : runEvents evs = some s) :
    s.closeCalls ≤ 2 ∧
    (s.phase = Phase.exited →
      s.registered = false ∧ 1 ≤ s.closeCalls) ∧
    (s.phase = Phase.exited → runEvents (evs ++ evs2) = some s2 → s2 = s) := by
  have hinv : ConnInv s := runFrom_inv evs initConn s initConn_inv h
  obtain ⟨h1, h2, h3, h4⟩ := hinv
  refine ⟨?_, ?_, ?_⟩
  · cases hph : s.phase
    case fresh =>
      have := (h1 hph).2
      omega
    case welcoming =>
      have := h2 hph
      cases hr : s.registered <;> rw [hr] at this <;> simp at this <;> omega
    case reading =>
      have := h3 hph
      cases hr : s.registered <;> rw [hr] at this <;> simp at this <;> omega
    case exited => exact (h4 hph).2.2
  · intro hph
    exact ⟨(h4 hph).1, (h4 hph).2.1⟩
  · intro hph hrun
    rw [runEvents, runFrom_append, ← runEvents, h, Option.some_bind] at hrun
    exact runFrom_exited evs2 s s2 hph (h4 hph).1 hrun

/-- C1 witness: the two-failure lifetime reaches the exited state with the
bounds of the amended statement. -/
theorem cleanup_bounded_and_irreversible_witness :
    (ConnState.mk Phase.exited false 2).closeCalls ≤ 2 ∧
    ((ConnState.mk Phase.exited false 2).phase = Phase.exited →
      (ConnState.mk Phase.exited false 2).registered = false ∧
      1 ≤ (ConnState.mk Phase.exited false 2).closeCalls) ∧
    ((ConnState.mk Phase.exited false 2).phase = Phase.exited →
      runEvents ([Ev.admitted, Ev.welcomeOk, Ev.bcastWriteFail, Ev.readFail] ++ []) =
        some (ConnState.mk Phase.exited false 2) →
      ConnState.mk Phase.exited false 2 = ConnState.mk Phase.exited false 2) :=
  cleanup_bounded_and_irreversible
    [Ev.admitted, Ev.welcomeOk, Ev.bcastWriteFail, Ev.readFail] []
    (ConnState.mk Phase.exited false 2) (ConnState.mk Phase.exited false 2) rfl

end GoWS
